import Mathlib

/-
  Shallow embedding of src/tools/docmeta-query.py (DocmetaQueryTool).

  Python values that can occur in tool parameters and in JSON documents are
  modelled by the scalar type PyVal (strings, ints, booleans, None); container
  parameters are modelled by PyParam.  An absent dictionary key, and the Python
  value None obtained from dict.get, are both modelled by Option.none.
  Machine-level details of the HTTP client are out of scope: the method
  _fetch_documents (raise-or-return boundary of the fetch) is modelled as an
  oracle argument of type String → String → String → String → Except String
  (List DocRecord), exactly the boundary at which _invoke catches exceptions.
-/

namespace DocmetaQuery

/-- Python scalar values (the value universe the claims quantify over). -/
inductive PyVal where
  | vstr (s : String)
  | vint (n : Int)
  | vbool (b : Bool)
  | vnone
deriving DecidableEq

/-- Python str() of a scalar value. -/
def PyVal.toStr : PyVal → String
  | .vstr s => s
  | .vint n => toString n
  | .vbool b => if b then "True" else "False"
  | .vnone => "None"

/-- Whitespace characters recognised by Python str.strip (ASCII range). -/
def isPySpace (c : Char) : Bool :=
  c = ' ' || c = '\t' || c = '\n' || c = '\r' || c = Char.ofNat 11 || c = Char.ofNat 12

/-- Python str.strip on the character list. -/
def pyStripList (cs : List Char) : List Char :=
  ((cs.dropWhile isPySpace).reverse.dropWhile isPySpace).reverse

/-- Python str.strip. -/
def pyStrip (s : String) : String := ⟨pyStripList s.data⟩

/-- Python str.lower (ASCII letters; the code only compares ASCII ids). -/
def pyLower (s : String) : String := ⟨s.data.map Char.toLower⟩

/-- Python str.split on a comma: keeps empty parts, "" splits to [""]. -/
def pySplitComma : List Char → List (List Char)
  | [] => [[]]
  | c :: rest =>
    if c = ',' then [] :: pySplitComma rest
    else
      match pySplitComma rest with
      | [] => [[c]]
      | g :: gs => (c :: g) :: gs

/-- Python token.split(chr(61), 1): split at the first equals sign. -/
def splitEq1 : List Char → List Char × List Char
  | [] => ([], [])
  | c :: rest =>
    if c = '=' then ([], rest)
    else
      let r := splitEq1 rest
      (c :: r.1, r.2)

/-- A single-quote character, used to build the error message literals. -/
def sq : String := String.singleton (Char.ofNat 39)

/-- Python s.startswith(c) for a one-character prefix. -/
def strStartsWithChar (s : String) (c : Char) : Bool :=
  match s.data with
  | [] => false
  | c0 :: _ => c0 = c

/-- Python s.endswith(c) for a one-character suffix. -/
def strEndsWithChar (s : String) (c : Char) : Bool :=
  match s.data.getLast? with
  | none => false
  | some c0 => c0 = c

/-- Python repr of a string, as produced by str() on containers (single
quotes; backslashes and quotes escaped).  Only reachable through the
fallback branches that stringify a whole list/dict parameter. -/
def pyReprOfStr (s : String) : String :=
  ⟨Char.ofNat 39 :: (s.data.flatMap fun c =>
    if c = '\\' then ['\\', '\\']
    else if c = Char.ofNat 39 then ['\\', Char.ofNat 39]
    else if c = '\n' then ['\\', 'n']
    else if c = '\r' then ['\\', 'r']
    else if c = '\t' then ['\\', 't']
    else [c]) ++ [Char.ofNat 39]⟩

/-- Python repr of a scalar, used inside str() of a list/dict. -/
def PyVal.reprStr : PyVal → String
  | .vstr s => pyReprOfStr s
  | .vint n => toString n
  | .vbool b => if b then "True" else "False"
  | .vnone => "None"

/-- A tool_parameters value: string, list, dict or other scalar.  A parameter
that is absent, or present with value None, is modelled as Option.none at the
use sites. -/
inductive PyParam where
  | pstr (s : String)
  | plist (xs : List PyVal)
  | pdict (kvs : List (PyVal × PyVal))
  | pother (v : PyVal)
deriving DecidableEq

/-- Python str() of a parameter value. -/
def PyParam.pyStr : PyParam → String
  | .pstr s => s
  | .plist xs => "[" ++ String.intercalate ", " (xs.map PyVal.reprStr) ++ "]"
  | .pdict kvs =>
      "\x7b" ++ String.intercalate ", "
        (kvs.map fun kv => kv.1.reprStr ++ ": " ++ kv.2.reprStr) ++ "\x7d"
  | .pother v => v.toStr

/-- One metadata entry of a document record: the dict keys "name", "value"
and "id" (Option.none models an absent key or a JSON null). -/
structure MetaEntry where
  name? : Option PyVal
  value? : Option PyVal
  id? : Option PyVal
deriving DecidableEq

/-- Python str(m.get(key, "")): stringify the entry field, defaulting to "". -/
def pyGetStr : Option PyVal → String
  | none => ""
  | some v => v.toStr

/-- The reserved built-in metadata names of _is_built_in_metadata. -/
def builtin_names : List String :=
  ["document_name", "uploader", "upload_date", "last_update_date", "source"]

/-- _is_built_in_metadata: id is "built-in"/"built_in" (case-insensitive),
or the stripped name is reserved. -/
def is_built_in_metadata (m : MetaEntry) : Bool :=
  let mid := pyLower (pyStrip (pyGetStr m.id?))
  if mid = "built-in" || mid = "built_in" then true
  else decide (pyStrip (pyGetStr m.name?) ∈ builtin_names)

/-- The stripped name of an entry, as computed in _filter_metadata. -/
def stripName (m : MetaEntry) : String := pyStrip (pyGetStr m.name?)

/-- The value string compared in _filter_metadata: "" when the value is
missing or None, otherwise str(value).strip(). -/
def metaValueStr (m : MetaEntry) : String :=
  match m.value? with
  | none => ""
  | some .vnone => ""
  | some v => pyStrip v.toStr

/-- Python dict lookup in a name-value map (keys are unique by construction
of dictInsert, so first match is the binding). -/
def lookupDict (m : List (String × String)) (k : String) : Option String :=
  match m.find? (fun p => p.1 = k) with
  | none => none
  | some p => some p.2

/-- Python dict assignment m[k] = v: overwrite in place or append. -/
def dictInsert (m : List (String × String)) (k v : String) : List (String × String) :=
  if m.any (fun p => p.1 = k) then m.map (fun p => if p.1 = k then (k, v) else p)
  else m ++ [(k, v)]

/-- Falsiness of the optional name set (None or an empty set). -/
def falsySet : Option (Finset String) → Bool
  | none => true
  | some s => s = ∅

/-- Falsiness of the optional name-value map (None or an empty dict). -/
def falsyMap : Option (List (String × String)) → Bool
  | none => true
  | some m => m = []

/-- _filter_metadata: drop built-ins; with no (truthy) filter return the
rest in order; otherwise keep entries with a non-empty stripped name that
pass the name-set membership test, or the name-value equality test. -/
def filter_metadata (metadata_list : List MetaEntry)
    (names_set : Option (Finset String))
    (name_value_map : Option (List (String × String))) : List MetaEntry :=
  if metadata_list.isEmpty then []
  else if falsySet names_set && falsyMap name_value_map then
    metadata_list.filter (fun m => !is_built_in_metadata m)
  else
    metadata_list.filter (fun m =>
      if is_built_in_metadata m then false
      else if stripName m = "" then false
      else
        match names_set with
        | some ns => decide (stripName m ∈ ns)
        | none =>
          match name_value_map with
          | some mp =>
            match lookupDict mp (stripName m) with
            | some expected => metaValueStr m = expected
            | none => false
          | none => false)

/-- _extract_document_name_from_metadata: first entry literally named
"document_name"; None value gives None, otherwise str(value). -/
def extract_document_name_from_metadata (metadata_list : List MetaEntry) : Option String :=
  match metadata_list.find? (fun m => m.name? = some (.vstr "document_name")) with
  | none => none
  | some m =>
    match m.value? with
    | none => none
    | some .vnone => none
    | some v => some v.toStr

/-! JSON (a model of Python json.loads, restricted to documents whose array
elements / object members are scalars — the value universe of PyVal). -/

/-- JSON whitespace skipping. -/
def skipWs : List Char → List Char :=
  List.dropWhile (fun c => c = ' ' || c = '\t' || c = '\n' || c = '\r')

/-- Value of one hex digit, as accepted in a JSON \u escape. -/
def hexVal? (c : Char) : Option Nat :=
  if 48 ≤ c.toNat ∧ c.toNat ≤ 57 then some (c.toNat - 48)
  else if 97 ≤ c.toNat ∧ c.toNat ≤ 102 then some (c.toNat - 87)
  else if 65 ≤ c.toNat ∧ c.toNat ≤ 70 then some (c.toNat - 55)
  else none

/-- Decoding of a single-character JSON escape. -/
def unescapeChar (e : Char) : Option Char :=
  if e = '"' then some '"'
  else if e = '\\' then some '\\'
  else if e = '/' then some '/'
  else if e = 'b' then some (Char.ofNat 8)
  else if e = 'f' then some (Char.ofNat 12)
  else if e = 'n' then some '\n'
  else if e = 'r' then some '\r'
  else if e = 't' then some '\t'
  else none

/-- JSON string body parser: input is the character list after the opening
quote; returns the decoded content and the rest after the closing quote. -/
def pStr : List Char → Option (List Char × List Char)
  | [] => none
  | c :: rest =>
    if c = '"' then some ([], rest)
    else if c = '\\' then
      match rest with
      | [] => none
      | e :: rest2 =>
        if e = 'u' then
          match rest2 with
          | a :: b :: c2 :: d :: rest3 =>
            match hexVal? a, hexVal? b, hexVal? c2, hexVal? d with
            | some ha, some hb, some hc, some hd =>
              match pStr rest3 with
              | none => none
              | some pr => some (Char.ofNat (4096 * ha + 256 * hb + 16 * hc + hd) :: pr.1, pr.2)
            | _, _, _, _ => none
          | _ => none
        else
          match unescapeChar e with
          | none => none
          | some ch =>
            match pStr rest2 with
            | none => none
            | some pr => some (ch :: pr.1, pr.2)
    else if c.toNat < 32 then none
    else
      match pStr rest with
      | none => none
      | some pr => some (c :: pr.1, pr.2)

/-- Digit-run accumulator for JSON integers. -/
def pDigitsGo (acc : Nat) : List Char → Nat × List Char
  | [] => (acc, [])
  | c :: rest =>
    if c.isDigit then pDigitsGo (10 * acc + (c.toNat - 48)) rest
    else (acc, c :: rest)

/-- Parse a non-empty digit run as a natural number. -/
def pDigitsPos (cs : List Char) : Option (Nat × List Char) :=
  match cs with
  | [] => none
  | c :: _ => if c.isDigit then some (pDigitsGo 0 cs) else none

/-- Parse one scalar JSON value (string, integer, true/false/null). -/
def pScalar? (cs : List Char) : Option (PyVal × List Char) :=
  match cs with
  | [] => none
  | c :: rest =>
    if c = '"' then
      match pStr rest with
      | none => none
      | some pr => some (.vstr ⟨pr.1⟩, pr.2)
    else if c = 't' then
      match rest with
      | 'r' :: 'u' :: 'e' :: r => some (.vbool true, r)
      | _ => none
    else if c = 'f' then
      match rest with
      | 'a' :: 'l' :: 's' :: 'e' :: r => some (.vbool false, r)
      | _ => none
    else if c = 'n' then
      match rest with
      | 'u' :: 'l' :: 'l' :: r => some (.vnone, r)
      | _ => none
    else if c = '-' then
      match pDigitsPos rest with
      | none => none
      | some nr => some (.vint (-(nr.1 : Int)), nr.2)
    else if c.isDigit then
      match pDigitsPos cs with
      | none => none
      | some nr => some (.vint (nr.1 : Int), nr.2)
    else none

theorem skipWs_length_le (cs : List Char) : (skipWs cs).length ≤ cs.length := by
  induction cs with
  | nil => simp [skipWs]
  | cons c cs ih =>
    simp only [skipWs, List.dropWhile] at *
    split
    · simp; omega
    · simp

theorem pStr_length_aux : ∀ (n : Nat) (cs : List Char), cs.length ≤ n →
    ∀ co r, pStr cs = some (co, r) → co.length + r.length < cs.length := by
  intro n
  induction n with
  | zero =>
    intro cs hle co r h
    cases cs with
    | nil => rw [pStr.eq_def] at h; exact absurd h (by simp)
    | cons c rest => simp at hle
  | succ n ih =>
    intro cs hle co r h
    cases cs with
    | nil => rw [pStr.eq_def] at h; exact absurd h (by simp)
    | cons c rest =>
      rw [pStr.eq_def] at h
      dsimp only at h
      by_cases hq : c = '"'
      · rw [if_pos hq] at h
        simp at h
        obtain ⟨h1, h2⟩ := h
        subst h1
        simp [h2]
      · rw [if_neg hq] at h
        by_cases hb : c = '\\'
        · rw [if_pos hb] at h
          cases rest with
          | nil => simp at h
          | cons e rest2 =>
            dsimp only at h
            by_cases he : e = 'u'
            · rw [if_pos he] at h
              rcases rest2 with _ | ⟨a, _ | ⟨b, _ | ⟨c2, _ | ⟨d, rest3⟩⟩⟩⟩ <;> dsimp only at h <;> try simp at h
              rcases h4 : hexVal? a with _ | x1 <;> rw [h4] at h <;> try simp at h
              rcases h5 : hexVal? b with _ | x2 <;> rw [h5] at h <;> try simp at h
              rcases h6 : hexVal? c2 with _ | x3 <;> rw [h6] at h <;> try simp at h
              rcases h7 : hexVal? d with _ | x4 <;> rw [h7] at h <;> try simp at h
              rcases h8 : pStr rest3 with _ | ⟨co3, r3⟩ <;> rw [h8] at h <;> simp at h
              obtain ⟨h1, h2⟩ := h
              have hlen := ih rest3 (by simp at hle; omega) co3 r3 h8
              subst h2
              have : co.length = co3.length + 1 := by rw [← h1]; simp
              simp at hle ⊢
              omega
            · rw [if_neg he] at h
              rcases h4 : unescapeChar e with _ | ch <;> rw [h4] at h <;> try simp at h
              rcases h8 : pStr rest2 with _ | ⟨co3, r3⟩ <;> rw [h8] at h <;> simp at h
              obtain ⟨h1, h2⟩ := h
              have hlen := ih rest2 (by simp at hle; omega) co3 r3 h8
              subst h2
              have : co.length = co3.length + 1 := by rw [← h1]; simp
              simp at hle ⊢
              omega
        · rw [if_neg hb] at h
          by_cases hctl : c.toNat < 32
          · rw [if_pos hctl] at h; simp at h
          · rw [if_neg hctl] at h
            rcases h8 : pStr rest with _ | ⟨co3, r3⟩ <;> rw [h8] at h <;> simp at h
            obtain ⟨h1, h2⟩ := h
            have hlen := ih rest (by simp at hle; omega) co3 r3 h8
            subst h2
            have : co.length = co3.length + 1 := by rw [← h1]; simp
            simp at hle ⊢
            omega

theorem pStr_length {cs co r : List Char} (h : pStr cs = some (co, r)) :
    co.length + r.length < cs.length :=
  pStr_length_aux cs.length cs (le_refl _) co r h

theorem pDigitsGo_length (acc : Nat) (cs : List Char) :
    (pDigitsGo acc cs).2.length ≤ cs.length := by
  induction cs generalizing acc with
  | nil => simp [pDigitsGo]
  | cons c rest ih =>
    simp only [pDigitsGo]
    split
    · exact le_trans (ih _) (by simp)
    · simp

theorem pDigitsPos_length {cs : List Char} {n : Nat} {r : List Char}
    (h : pDigitsPos cs = some (n, r)) : r.length < cs.length := by
  cases cs with
  | nil => simp [pDigitsPos] at h
  | cons c rest =>
    simp only [pDigitsPos] at h
    split at h
    · rename_i hdig
      have h2 : r = (pDigitsGo 0 (c :: rest)).2 := by
        cases h3 : pDigitsGo 0 (c :: rest) with
        | mk a b => rw [h3] at h; simp at h; simp [h.2]
      have h4 : pDigitsGo 0 (c :: rest) = pDigitsGo (c.toNat - 48) rest := by
        simp only [pDigitsGo, if_pos hdig, Nat.mul_zero, Nat.zero_add]
      rw [h2, h4]
      have := pDigitsGo_length (c.toNat - 48) rest
      simp
      omega
    · simp at h

theorem pScalar?_length {cs : List Char} {v : PyVal} {r : List Char}
    (h : pScalar? cs = some (v, r)) : r.length < cs.length := by
  cases cs with
  | nil => simp [pScalar?] at h
  | cons c rest =>
    simp only [pScalar?] at h
    split at h
    · rcases h8 : pStr rest with _ | ⟨co3, r3⟩ <;> rw [h8] at h <;> simp at h
      have := pStr_length h8
      rw [← h.2]
      simp
      omega
    · split at h
      · split at h <;> simp at h
        rw [← h.2]
        simp
        omega
      · split at h
        · split at h <;> simp at h
          rw [← h.2]
          simp
          omega
        · split at h
          · split at h <;> simp at h
            rw [← h.2]
            simp
            omega
          · split at h
            · rcases h8 : pDigitsPos rest with _ | ⟨nn, rr⟩ <;> rw [h8] at h <;> simp at h
              have := pDigitsPos_length h8
              rw [← h.2]
              simp
              omega
            · split at h
              · rcases h8 : pDigitsPos (c :: rest) with _ | ⟨nn, rr⟩ <;> rw [h8] at h <;> simp at h
                have := pDigitsPos_length h8
                rw [← h.2]
                omega
              · simp at h

/-- Parse the element list of a JSON array (after at least one element is
known to be present): value, then a comma and more elements or the closing
bracket. -/
def pArrLoop (cs : List Char) : Option (List PyVal × List Char) :=
  match h1 : pScalar? (skipWs cs) with
  | none => none
  | some vr =>
    match h2 : skipWs vr.2 with
    | [] => none
    | c :: r =>
      if c = ']' then some ([vr.1], r)
      else if c = ',' then
        match pArrLoop r with
        | none => none
        | some xsr => some (vr.1 :: xsr.1, xsr.2)
      else none
termination_by cs.length
decreasing_by
  have ha := pScalar?_length h1
  have hb := skipWs_length_le cs
  have hc := skipWs_length_le vr.2
  rw [h2] at hc
  simp at hc
  omega

/-- Parse a JSON array body (after the opening bracket): empty array or a
non-empty element list. -/
def pArrRest (cs : List Char) : Option (List PyVal × List Char) :=
  match skipWs cs with
  | [] => none
  | c :: r => if c = ']' then some ([], r) else pArrLoop cs

/-- Parse the member list of a JSON object (after at least one member is
known to be present): string key, colon, scalar value, then a comma and
more members or the closing brace. -/
def pObjLoop (cs : List Char) : Option (List (PyVal × PyVal) × List Char) :=
  match h0 : skipWs cs with
  | [] => none
  | q :: kr =>
    if q = '"' then
      match h1 : pStr kr with
      | none => none
      | some key =>
        match h2 : skipWs key.2 with
        | [] => none
        | colon :: vr =>
          if colon = ':' then
            match h3 : pScalar? (skipWs vr) with
            | none => none
            | some v =>
              match h4 : skipWs v.2 with
              | [] => none
              | c :: r =>
                if c = Char.ofNat 125 then some ([(.vstr ⟨key.1⟩, v.1)], r)
                else if c = ',' then
                  match pObjLoop r with
                  | none => none
                  | some msr => some ((.vstr ⟨key.1⟩, v.1) :: msr.1, msr.2)
                else none
          else none
    else none
termination_by cs.length
decreasing_by
  have g0 := skipWs_length_le cs
  rw [h0] at g0
  have g1 := pStr_length h1
  have g2 := skipWs_length_le key.2
  rw [h2] at g2
  have g2b := skipWs_length_le vr
  have g3 := pScalar?_length h3
  have g4 := skipWs_length_le v.2
  rw [h4] at g4
  simp at g0 g2 g4
  omega

/-- Parse a JSON object body (after the opening brace): empty object or a
non-empty member list. -/
def pObjRest (cs : List Char) : Option (List (PyVal × PyVal) × List Char) :=
  match skipWs cs with
  | [] => none
  | c :: r => if c = Char.ofNat 125 then some ([], r) else pObjLoop cs

/-- A parsed top-level JSON document: an array or object over scalar values,
or a scalar. -/
inductive JVal where
  | jarr (xs : List PyVal)
  | jobj (kvs : List (PyVal × PyVal))
  | jstr (s : String)
  | jint (n : Int)
  | jbool (b : Bool)
  | jnull
deriving DecidableEq

/-- The scalar constructors of JVal. -/
def jvalOfScalar : PyVal → JVal
  | .vstr s => .jstr s
  | .vint n => .jint n
  | .vbool b => .jbool b
  | .vnone => .jnull

/-- Model of Python json.loads restricted to documents whose arrays and
objects contain scalar members: parse one value and require only whitespace
after it. -/
def jsonLoads (s : String) : Option JVal :=
  match skipWs s.data with
  | [] => none
  | c :: r =>
    if c = '[' then
      match pArrRest r with
      | none => none
      | some ar => if (skipWs ar.2).isEmpty then some (.jarr ar.1) else none
    else if c = Char.ofNat 123 then
      match pObjRest r with
      | none => none
      | some og => if (skipWs og.2).isEmpty then some (.jobj og.1) else none
    else
      match pScalar? (c :: r) with
      | none => none
      | some vr => if (skipWs vr.2).isEmpty then some (jvalOfScalar vr.1) else none

/-- The Python value produced by json.loads, as a tool-parameter value
(JSON null becomes the Python None, i.e. Option.none). -/
def jvalToParam : JVal → Option PyParam
  | .jarr xs => some (.plist xs)
  | .jobj kvs => some (.pdict kvs)
  | .jstr s => some (.pstr s)
  | .jint n => some (.pother (.vint n))
  | .jbool b => some (.pother (.vbool b))
  | .jnull => none

theorem jsonLoads_jstr_length {t : String} {s' : String}
    (h : jsonLoads t = some (.jstr s')) : s'.data.length < t.data.length := by
  unfold jsonLoads at h
  rcases h0 : skipWs t.data with _ | ⟨c, r⟩ <;> rw [h0] at h <;> dsimp only at h
  · simp at h
  · have g0 := skipWs_length_le t.data
    rw [h0] at g0
    simp at g0
    split at h
    · rcases h2 : pArrRest r with _ | ar <;> rw [h2] at h
      · simp at h
      · split at h <;> simp at h
    · split at h
      · rcases h2 : pObjRest r with _ | og <;> rw [h2] at h
        · simp at h
        · split at h <;> simp at h
      · rcases h1 : pScalar? (c :: r) with _ | ⟨v, rest⟩ <;> rw [h1] at h <;> dsimp only at h
        · simp at h
        · split at h
          · simp at h
            cases v with
            | vstr s2 =>
              simp only [jvalOfScalar, JVal.jstr.injEq] at h
              subst h
              simp only [pScalar?] at h1
              split at h1
              · rcases h8 : pStr r with _ | ⟨co3, r3⟩ <;> rw [h8] at h1 <;> simp at h1
                have hplen := pStr_length h8
                rw [← h1.1]
                have ht : t.length = t.data.length := rfl
                show co3.length < t.data.length
                omega
              · split at h1
                · split at h1 <;> simp at h1
                · split at h1
                  · split at h1 <;> simp at h1
                  · split at h1
                    · split at h1 <;> simp at h1
                    · split at h1
                      · rcases h8 : pDigitsPos r with _ | nr <;> rw [h8] at h1 <;> simp at h1
                      · split at h1
                        · rcases h8 : pDigitsPos (c :: r) with _ | nr <;> rw [h8] at h1 <;> simp at h1
                        · simp at h1
            | vint n => simp [jvalOfScalar] at h
            | vbool b => simp [jvalOfScalar] at h
            | vnone => simp [jvalOfScalar] at h
          · simp at h

theorem dropWhile_length_le {α : Type} (p : α → Bool) (cs : List α) :
    (cs.dropWhile p).length ≤ cs.length := by
  induction cs with
  | nil => simp
  | cons c cs ih =>
    simp only [List.dropWhile]
    split
    · simp; omega
    · simp

theorem pyStrip_length_le (s : String) : (pyStrip s).data.length ≤ s.data.length := by
  show (pyStripList s.data).length ≤ s.data.length
  unfold pyStripList
  have h1 := dropWhile_length_le isPySpace s.data
  have h2 := dropWhile_length_le isPySpace (s.data.dropWhile isPySpace).reverse
  have h3 : s.length = s.data.length := rfl
  simp at h2 ⊢
  omega

/-- The recursion measure for the normalizers: only string parameters recurse. -/
def paramSize : Option PyParam → Nat
  | some (.pstr s) => s.data.length + 1
  | _ => 0

/-- The bracket-or-quote shape test of _normalize_dataset_list and
_normalize_document_name_list. -/
def looksJsonListShaped (s : String) : Bool :=
  (strStartsWithChar s '[' && strEndsWithChar s ']')
    || (strStartsWithChar s '"' && strEndsWithChar s '"')

/-- The comma/newline fallback split of _normalize_dataset_list. -/
def datasetSplit (s : String) : List String :=
  ((pySplitComma (s.data.map (fun c => if c = '\n' then ',' else c))).map
    (fun g => pyStrip ⟨g⟩)).filter (fun p => p ≠ "")

/-- The comma/full-width-comma/newline fallback split of
_normalize_document_name_list. -/
def docNameSplit (s : String) : List String :=
  ((pySplitComma ((s.data.map (fun c => if c = '\n' then ',' else c)).map
      (fun c => if c = '，' then ',' else c))).map
    (fun g => pyStrip ⟨g⟩)).filter (fun p => p ≠ "")

def dsMissingMsg : String := "missing required parameter: dataset_list"

def dsEmptyMsg : String := "parameter " ++ sq ++ "dataset_list" ++ sq ++ " is empty"

/-- _normalize_dataset_list. -/
def normalize_dataset_list (val : Option PyParam) : Except String (List String) :=
  match val with
  | none => .error dsMissingMsg
  | some (.plist xs) =>
    let items := (xs.map (fun x => pyStrip x.toStr)).filter (fun x => x ≠ "")
    if items.isEmpty then .error dsEmptyMsg else .ok items
  | some (.pstr s0) =>
    if pyStrip s0 = "" then .error dsEmptyMsg
    else if looksJsonListShaped (pyStrip s0) then
      match h : jsonLoads (pyStrip s0) with
      | some j => normalize_dataset_list (jvalToParam j)
      | none =>
        let parts := datasetSplit (pyStrip s0)
        if parts.isEmpty then .error dsEmptyMsg else .ok parts
    else
      let parts := datasetSplit (pyStrip s0)
      if parts.isEmpty then .error dsEmptyMsg else .ok parts
  | some p => .ok [p.pyStr]
termination_by paramSize val
decreasing_by
  have hlt := pyStrip_length_le s0
  cases j with
  | jstr s2 =>
    have := jsonLoads_jstr_length h
    have e1 : s2.length = s2.data.length := rfl
    have e2 : s0.length = s0.data.length := rfl
    simp [jvalToParam, paramSize]
    omega
  | jarr xs => simp [jvalToParam, paramSize]
  | jobj kvs => simp [jvalToParam, paramSize]
  | jint n => simp [jvalToParam, paramSize]
  | jbool b => simp [jvalToParam, paramSize]
  | jnull => simp [jvalToParam, paramSize]

def dnMissingMsg : String := "missing required parameter: document_name"

def dnEmptyMsg : String := "parameter " ++ sq ++ "document_name" ++ sq ++ " is empty"

/-- _normalize_document_name_list. -/
def normalize_document_name_list (val : Option PyParam) : Except String (List String) :=
  match val with
  | none => .error dnMissingMsg
  | some (.plist xs) =>
    let items := (xs.map (fun x => pyStrip x.toStr)).filter (fun x => x ≠ "")
    if items.isEmpty then .error dnEmptyMsg else .ok items
  | some (.pstr s0) =>
    if pyStrip s0 = "" then .error dnEmptyMsg
    else if looksJsonListShaped (pyStrip s0) then
      match h : jsonLoads (pyStrip s0) with
      | some j => normalize_document_name_list (jvalToParam j)
      | none =>
        let parts := docNameSplit (pyStrip s0)
        if parts.isEmpty then .error dnEmptyMsg else .ok parts
    else
      let parts := docNameSplit (pyStrip s0)
      if parts.isEmpty then .error dnEmptyMsg else .ok parts
  | some p => .ok [p.pyStr]
termination_by paramSize val
decreasing_by
  have hlt := pyStrip_length_le s0
  cases j with
  | jstr s2 =>
    have := jsonLoads_jstr_length h
    have e1 : s2.length = s2.data.length := rfl
    have e2 : s0.length = s0.data.length := rfl
    simp [jvalToParam, paramSize]
    omega
  | jarr xs => simp [jvalToParam, paramSize]
  | jobj kvs => simp [jvalToParam, paramSize]
  | jint n => simp [jvalToParam, paramSize]
  | jbool b => simp [jvalToParam, paramSize]
  | jnull => simp [jvalToParam, paramSize]

/-- _require_str. -/
def require_str (val : Option PyParam) (name : String) : Except String String :=
  match val with
  | none => .error ("missing required parameter: " ++ name)
  | some (.pstr s) =>
    if pyStrip s = "" then .error ("parameter " ++ sq ++ name ++ sq ++ " cannot be empty")
    else .ok (pyStrip s)
  | some p => .ok p.pyStr

def DEFAULT_BASE_URL : String := "http://127.0.0.1:5001"

/-- _normalize_base_url. -/
def normalize_base_url (val : Option PyParam) : String :=
  match val with
  | none => DEFAULT_BASE_URL
  | some p =>
    let s := pyStrip p.pyStr
    if s = "" then DEFAULT_BASE_URL
    else if s.startsWith "http://" || s.startsWith "https://" then s
    else "http://" ++ s

/-- The name set built from a native list in _parse_metadata_filter (a
Python set: unordered, empties dropped). -/
def namesOfList (xs : List PyVal) : Finset String :=
  ((xs.map (fun x => pyStrip x.toStr)).filter (fun x => x ≠ "")).toFinset

/-- The name-value map built from a native mapping in _parse_metadata_filter
(keys and values stringified and stripped; empty keys dropped; later
duplicates overwrite). -/
def mapOfDict (kvs : List (PyVal × PyVal)) : List (String × String) :=
  kvs.foldl
    (fun m kv =>
      if pyStrip kv.1.toStr = "" then m
      else dictInsert m (pyStrip kv.1.toStr) (pyStrip kv.2.toStr))
    []

/-- The list branch of _parse_metadata_filter: a name set, or None if empty. -/
def filterFromList (xs : List PyVal) :
    Option (Finset String) × Option (List (String × String)) :=
  (if namesOfList xs = ∅ then none else some (namesOfList xs), none)

/-- The dict branch of _parse_metadata_filter: a name-value map, or None if
empty. -/
def filterFromDict (kvs : List (PyVal × PyVal)) :
    Option (Finset String) × Option (List (String × String)) :=
  (none, if mapOfDict kvs = [] then none else some (mapOfDict kvs))

/-- The key=value branch of _parse_metadata_filter: normalize separators,
split on commas, keep tokens with an equals sign and a non-empty key. -/
def eqBranch (s : String) :
    Option (Finset String) × Option (List (String × String)) :=
  let normalized :=
    (((s.data.map (fun c => if c = '\n' then ',' else c)).map
        (fun c => if c = '；' then ';' else c)).map
      (fun c => if c = '，' then ',' else c)).map
      (fun c => if c = ';' then ',' else c)
  let mp := (pySplitComma normalized).foldl
    (fun m tk =>
      let token := pyStrip ⟨tk⟩
      if token = "" then m
      else if token.data.contains '=' then
        let kv := splitEq1 token.data
        if pyStrip ⟨kv.1⟩ = "" then m
        else dictInsert m (pyStrip ⟨kv.1⟩) (pyStrip ⟨kv.2⟩)
      else m)
    []
  (none, if mp = [] then none else some mp)

/-- The plain-names branch of _parse_metadata_filter: split on
comma/full-width comma/newline into a set of non-empty names. -/
def namesBranch (s : String) :
    Option (Finset String) × Option (List (String × String)) :=
  let names :=
    (((pySplitComma ((s.data.map (fun c => if c = '\n' then ',' else c)).map
        (fun c => if c = '，' then ',' else c))).map
      (fun g => pyStrip ⟨g⟩)).filter (fun p => p ≠ "")).toFinset
  (if names = ∅ then none else some names, none)

/-- The string tail of _parse_metadata_filter once JSON does not apply:
key=value pairs when an equals sign occurs, otherwise a name list. -/
def stringFilterTail (s : String) :
    Option (Finset String) × Option (List (String × String)) :=
  if s.data.contains '=' then eqBranch s else namesBranch s

/-- The bracket-or-brace shape test of _parse_metadata_filter. -/
def looksJsonFilterShaped (s : String) : Bool :=
  (strStartsWithChar s '[' && strEndsWithChar s ']')
    || (strStartsWithChar s (Char.ofNat 123) && strEndsWithChar s (Char.ofNat 125))

/-- _parse_metadata_filter. -/
def parse_metadata_filter (val : Option PyParam) :
    Option (Finset String) × Option (List (String × String)) :=
  match val with
  | none => (none, none)
  | some (.plist xs) => filterFromList xs
  | some (.pdict kvs) => filterFromDict kvs
  | some (.pstr s0) =>
    if pyStrip s0 = "" then (none, none)
    else if looksJsonFilterShaped (pyStrip s0) then
      match h : jsonLoads (pyStrip s0) with
      | some j => parse_metadata_filter (jvalToParam j)
      | none => stringFilterTail (pyStrip s0)
    else stringFilterTail (pyStrip s0)
  | some (.pother _) => (none, none)
termination_by paramSize val
decreasing_by
  have hlt := pyStrip_length_le s0
  cases j with
  | jstr s2 =>
    have := jsonLoads_jstr_length h
    have e1 : s2.length = s2.data.length := rfl
    have e2 : s0.length = s0.data.length := rfl
    simp [jvalToParam, paramSize]
    omega
  | jarr xs => simp [jvalToParam, paramSize]
  | jobj kvs => simp [jvalToParam, paramSize]
  | jint n => simp [jvalToParam, paramSize]
  | jbool b => simp [jvalToParam, paramSize]
  | jnull => simp [jvalToParam, paramSize]

/-- A document record returned by the listing API: optional top-level name
(a string or absent/None) and the doc_metadata list (absent, None and empty
all behave as the empty list in the code, via get-with-default and "or []").
-/
structure DocRecord where
  name? : Option String
  doc_metadata : List MetaEntry
deriving DecidableEq

/-- One aggregated result item: document_name and filtered metadata. -/
structure ResultItem where
  document_name : String
  metadata : List MetaEntry
deriving DecidableEq

/-- The per-document body of the fetch loop in _invoke: resolve the display
name (top-level name if truthy, else the document_name metadata entry, else
empty) and filter the metadata. -/
def processDoc (names_set : Option (Finset String))
    (name_value_map : Option (List (String × String))) (doc : DocRecord) : ResultItem :=
  let dn : Option String :=
    if doc.name? = none ∨ doc.name? = some "" then
      extract_document_name_from_metadata doc.doc_metadata
    else doc.name?
  { document_name := match dn with | none => "" | some s => s,
    metadata := filter_metadata doc.doc_metadata names_set name_value_map }

/-- The per-pair error string recorded by _invoke. -/
def pairErrMsg (ds kw e : String) : String :=
  "dataset " ++ ds ++ ", keyword " ++ sq ++ kw ++ sq ++ ": " ++ e

/-- The nested fetch loop of _invoke over (dataset, keyword) pairs: returns
the aggregated result items, the per-pair error strings, and the list of
pairs for which a fetch was attempted (one HTTP call each), all in loop
order. -/
def runPairs (base key : String) (names_set : Option (Finset String))
    (name_value_map : Option (List (String × String)))
    (fetch : String → String → String → String → Except String (List DocRecord)) :
    List (String × String) → List ResultItem × List String × List (String × String)
  | [] => ([], [], [])
  | dk :: rest =>
    let r := runPairs base key names_set name_value_map fetch rest
    match fetch base dk.1 key dk.2 with
    | .error e => (r.1, pairErrMsg dk.1 dk.2 e :: r.2.1, dk :: r.2.2)
    | .ok docs => (docs.map (processDoc names_set name_value_map) ++ r.1, r.2.1, dk :: r.2.2)

/-- The (dataset, keyword) pairs in loop order: datasets outer, keywords
inner. -/
def pairList (ds names : List String) : List (String × String) :=
  ds.foldr (fun d acc => names.map (fun k => (d, k)) ++ acc) []

/-- A message yielded by _invoke: an error message or the JSON success
payload carrying the documents list. -/
inductive OutMsg where
  | error (msg : String)
  | json (documents : List ResultItem)
deriving DecidableEq

/-- The tool_parameters dict (Option.none: key absent or value None). -/
structure ToolParams where
  dataset_list : Option PyParam
  kb_api_key : Option PyParam
  document_name : Option PyParam
  metadata_filter : Option PyParam
  kb_base_url : Option PyParam

/-- _invoke: validate and normalize the inputs (any ValueError yields a
single error message and stops before any fetch), run the fetch loop, and
emit one message.  The second component records the fetch calls that were
performed. -/
def invoke (p : ToolParams)
    (fetch : String → String → String → String → Except String (List DocRecord)) :
    List OutMsg × List (String × String) :=
  match normalize_dataset_list p.dataset_list with
  | .error e => ([.error e], [])
  | .ok dataset_list =>
    match require_str p.kb_api_key "kb_api_key" with
    | .error e => ([.error e], [])
    | .ok api_key =>
      match normalize_document_name_list p.document_name with
      | .error e => ([.error e], [])
      | .ok document_name_list =>
        let base_url := normalize_base_url p.kb_base_url
        let fcfg := parse_metadata_filter p.metadata_filter
        let r := runPairs base_url api_key fcfg.1 fcfg.2 fetch
          (pairList dataset_list document_name_list)
        if r.1.isEmpty then
          if r.2.1.isEmpty then (([.error "no documents found"]), r.2.2)
          else ([.error ("no documents found; errors: " ++ String.intercalate "; " r.2.1)], r.2.2)
        else ([.json r.1], r.2.2)

/-! Helper lemmas about the metadata filter. -/

theorem mem_filter_metadata_not_builtin {l : List MetaEntry}
    {a : Option (Finset String)} {b : Option (List (String × String))}
    {m : MetaEntry} (h : m ∈ filter_metadata l a b) :
    is_built_in_metadata m = false := by
  unfold filter_metadata at h
  split at h
  · simp at h
  · split at h
    · rw [List.mem_filter] at h
      simpa using h.2
    · rw [List.mem_filter] at h
      have h2 := h.2
      by_cases hb : is_built_in_metadata m
      · rw [if_pos hb] at h2; simp at h2
      · simpa using hb

theorem runPairs_mem_not_builtin (base key : String)
    (a : Option (Finset String)) (b : Option (List (String × String)))
    (fetch : String → String → String → String → Except String (List DocRecord)) :
    ∀ (pairs : List (String × String)) (it : ResultItem),
      it ∈ (runPairs base key a b fetch pairs).1 →
      ∀ m ∈ it.metadata, is_built_in_metadata m = false := by
  intro pairs
  induction pairs with
  | nil => simp [runPairs]
  | cons dk rest ih =>
    intro it hit m hm
    simp only [runPairs] at hit
    rcases hf : fetch base dk.1 key dk.2 with e | docs <;> rw [hf] at hit <;> dsimp only at hit
    · exact ih it hit m hm
    · rw [List.mem_append] at hit
      rcases hit with hit | hit
      · rw [List.mem_map] at hit
        obtain ⟨doc, _, hdoc⟩ := hit
        have : it.metadata = filter_metadata doc.doc_metadata a b := by
          rw [← hdoc]
          rfl
        rw [this] at hm
        exact mem_filter_metadata_not_builtin hm
      · exact ih it hit m hm

/-- Claim C1: for every document record and every filter spec (absent,
name-set, or name-value-map), no built-in metadata entry (id stripped and
lowercased equal to "built-in"/"built_in", or stripped name in the reserved
set, i.e. is_built_in_metadata) ever appears in the filtered metadata of any
aggregated result item emitted by the adapter. -/
theorem c1_no_builtin_in_output (p : ToolParams)
    (fetch : String → String → String → String → Except String (List DocRecord))
    (items : List ResultItem) (it : ResultItem) (m : MetaEntry)
    (hout : OutMsg.json items ∈ (invoke p fetch).1)
    (hit : it ∈ items) (hm : m ∈ it.metadata) :
    is_built_in_metadata m = false := by
  unfold invoke at hout
  rcases h1 : normalize_dataset_list p.dataset_list with e | ds <;> rw [h1] at hout <;>
    dsimp only at hout
  · simp at hout
  rcases h2 : require_str p.kb_api_key "kb_api_key" with e | key <;> rw [h2] at hout <;>
    dsimp only at hout
  · simp at hout
  rcases h3 : normalize_document_name_list p.document_name with e | names <;> rw [h3] at hout <;>
    dsimp only at hout
  · simp at hout
  split at hout
  · split at hout <;> simp at hout
  · simp at hout
    rw [hout] at hit
    exact runPairs_mem_not_builtin _ _ _ _ fetch _ it hit m hm

/-- Witness data for C1: one fetched document with one plain and one
built-in entry. -/
def c1AuthorEntry : MetaEntry := ⟨some (.vstr "author"), some (.vstr "Al"), none⟩

def c1BuiltinEntry : MetaEntry := ⟨some (.vstr "uploader"), some (.vstr "U"), none⟩

def c1Params : ToolParams :=
  ⟨some (.plist [.vstr "ds1"]), some (.pstr "key"), some (.pstr "report"), none, none⟩

def c1Fetch : String → String → String → String → Except String (List DocRecord) :=
  fun _ _ _ _ => .ok [⟨some "doc", [c1AuthorEntry, c1BuiltinEntry]⟩]

theorem c1_witness : is_built_in_metadata c1AuthorEntry = false := by
  have hv : (invoke c1Params c1Fetch).1 =
      [OutMsg.json [⟨"doc", [c1AuthorEntry]⟩]] := by
    unfold invoke
    rw [normalize_dataset_list.eq_def]
    rw [normalize_document_name_list.eq_def]
    rw [parse_metadata_filter.eq_def]
    decide
  exact c1_no_builtin_in_output c1Params c1Fetch [⟨"doc", [c1AuthorEntry]⟩]
    ⟨"doc", [c1AuthorEntry]⟩ c1AuthorEntry
    (by rw [hv]; exact List.mem_singleton.mpr rfl)
    (List.mem_singleton.mpr rfl) (by simp)

/-- Claim C8: with no filter spec, the filtered metadata is the record
metadata with exactly the built-in entries removed, in order. -/
theorem c8_no_filter_keeps_non_builtin_in_order (l : List MetaEntry) :
    filter_metadata l none none = l.filter (fun m => !is_built_in_metadata m) := by
  unfold filter_metadata
  cases l with
  | nil => simp
  | cons a t => simp [falsySet, falsyMap]

/-- Claim C7: an entry whose name strips to empty is dropped whenever a
filter is active (the name-set or name-value-map path of _filter_metadata is
taken), and is retained on the no-filter default path provided it is not
built-in. -/
theorem c7_empty_name_dropped_under_filter (l : List MetaEntry)
    (nset : Option (Finset String)) (nvmap : Option (List (String × String)))
    (m : MetaEntry) (hm : m ∈ l) (hname : stripName m = "") :
    ((falsySet nset && falsyMap nvmap) = false → m ∉ filter_metadata l nset nvmap)
      ∧ ((falsySet nset && falsyMap nvmap) = true → is_built_in_metadata m = false →
          m ∈ filter_metadata l nset nvmap) := by
  have hne : l.isEmpty = false := by
    cases l with
    | nil => simp at hm
    | cons a t => simp
  constructor
  · intro hact hmem
    unfold filter_metadata at hmem
    rw [hne] at hmem
    rw [hact] at hmem
    simp at hmem
    exact hmem.2.2.1 hname
  · intro hinact hbuiltin
    unfold filter_metadata
    rw [hne]
    rw [hinact]
    simp only [Bool.false_eq_true, if_false, if_true]
    rw [List.mem_filter]
    exact ⟨hm, by rw [hbuiltin]; rfl⟩

/-- Witness data for C7: an entry whose name is whitespace only. -/
def c7Entry : MetaEntry := ⟨some (.vstr " "), some (.vstr "x"), none⟩

theorem c7_witness :
    c7Entry ∉ filter_metadata [c7Entry] (some {"a"}) none
      ∧ c7Entry ∈ filter_metadata [c7Entry] none none :=
  ⟨(c7_empty_name_dropped_under_filter [c7Entry] (some {"a"}) none c7Entry
      (List.mem_singleton.mpr rfl) (by decide)).1 (by decide),
   (c7_empty_name_dropped_under_filter [c7Entry] none none c7Entry
      (List.mem_singleton.mpr rfl) (by decide)).2 rfl (by decide)⟩

/-- Counterexample data for C2: the entry name strips to empty, the map has
matching bindings both for the raw name and for the stripped name, and the
stringified stripped value matches, yet the entry is dropped. -/
def c2CexEntry : MetaEntry := ⟨some (.vstr " "), some (.vstr "v"), none⟩

def c2CexMap : List (String × String) := [("", "v"), (" ", "v")]

/-- Claim C2 as stated is false: this non-built-in entry has its name (both
the raw name " " and the stripped name "") among the keys of the supplied
name-value map, and its stringified stripped value "v" equals the expected
value, yet _filter_metadata drops it, because entries whose stripped name is
empty are skipped before the map test. -/
theorem c2_counterexample :
    is_built_in_metadata c2CexEntry = false
      ∧ lookupDict c2CexMap (pyGetStr c2CexEntry.name?) = some (metaValueStr c2CexEntry)
      ∧ lookupDict c2CexMap (stripName c2CexEntry) = some (metaValueStr c2CexEntry)
      ∧ filter_metadata [c2CexEntry] none (some c2CexMap) = [] := by
  decide

/-- Claim C2, amended: under a supplied non-empty name-value-map filter, a
non-built-in metadata entry is kept if and only if its stripped name is
non-empty, that stripped name is a key of the map, and the stringified,
stripped form of its value (the empty string for a missing or None value)
equals the map expected value for that name, by exact case-sensitive string
equality. -/
theorem c2_value_filter_keeps_iff (l : List MetaEntry)
    (mp : List (String × String)) (m : MetaEntry)
    (hmp : mp ≠ []) (hm : m ∈ l) (hbuiltin : is_built_in_metadata m = false) :
    m ∈ filter_metadata l none (some mp)
      ↔ (stripName m ≠ "" ∧ lookupDict mp (stripName m) = some (metaValueStr m)) := by
  have hne : l.isEmpty = false := by
    cases l with
    | nil => simp at hm
    | cons a t => simp
  have hcond : (falsySet none && falsyMap (some mp)) = false := by
    simp [falsySet, falsyMap, hmp]
  unfold filter_metadata
  rw [hne, hcond]
  simp only [Bool.false_eq_true, if_false]
  rw [List.mem_filter]
  constructor
  · intro ⟨_, hpred⟩
    rw [if_neg (by rw [hbuiltin]; simp)] at hpred
    by_cases hn : stripName m = ""
    · rw [if_pos hn] at hpred; simp at hpred
    · rw [if_neg hn] at hpred
      refine ⟨hn, ?_⟩
      rcases hlk : lookupDict mp (stripName m) with _ | expected <;> rw [hlk] at hpred
      · simp at hpred
      · simp at hpred
        rw [hpred]
  · intro ⟨hn, hlk⟩
    refine ⟨hm, ?_⟩
    rw [if_neg (by rw [hbuiltin]; simp), if_neg hn, hlk]
    simp

/-- Witness data for the amended C2: a kept entry. -/
def c2WEntry : MetaEntry := ⟨some (.vstr "a"), some (.vstr " 1 "), none⟩

theorem c2_witness :
    c2WEntry ∈ filter_metadata [c2WEntry] none (some [("a", "1")]) :=
  (c2_value_filter_keeps_iff [c2WEntry] [("a", "1")] c2WEntry (by decide)
    (List.mem_singleton.mpr rfl) (by decide)).mpr ⟨by decide, by decide⟩

/-! Helper lemmas for the filter parser claims. -/

theorem stringFilterTail_at_most_one (s : String) :
    (stringFilterTail s).1 = none ∨ (stringFilterTail s).2 = none := by
  unfold stringFilterTail
  split
  · left; rfl
  · right; rfl

theorem parse_filter_at_most_one (v : Option PyParam) :
    (parse_metadata_filter v).1 = none ∨ (parse_metadata_filter v).2 = none := by
  have H : ∀ (n : Nat) (v : Option PyParam), paramSize v ≤ n →
      (parse_metadata_filter v).1 = none ∨ (parse_metadata_filter v).2 = none := by
    intro n
    induction n with
    | zero =>
      intro v hle
      match v with
      | none => rw [parse_metadata_filter.eq_def]; left; rfl
      | some (.plist xs) =>
        rw [parse_metadata_filter.eq_def]
        right; rfl
      | some (.pdict kvs) =>
        rw [parse_metadata_filter.eq_def]
        left; rfl
      | some (.pother w) =>
        rw [parse_metadata_filter.eq_def]
        left; rfl
      | some (.pstr s0) =>
        simp [paramSize] at hle
    | succ n ih =>
      intro v hle
      match v with
      | none => rw [parse_metadata_filter.eq_def]; left; rfl
      | some (.plist xs) =>
        rw [parse_metadata_filter.eq_def]
        right; rfl
      | some (.pdict kvs) =>
        rw [parse_metadata_filter.eq_def]
        left; rfl
      | some (.pother w) =>
        rw [parse_metadata_filter.eq_def]
        left; rfl
      | some (.pstr s0) =>
        rw [parse_metadata_filter.eq_def]
        dsimp only
        split
        · left; rfl
        · split
          · split
            · rename_i j hj
              apply ih
              have hlt := pyStrip_length_le s0
              cases j with
              | jstr s2 =>
                have := jsonLoads_jstr_length hj
                simp [jvalToParam, paramSize] at hle ⊢
                have e1 : s2.length = s2.data.length := rfl
                have e2 : s0.length = s0.data.length := rfl
                omega
              | jarr xs => simp [jvalToParam, paramSize]
              | jobj kvs => simp [jvalToParam, paramSize]
              | jint nn => simp [jvalToParam, paramSize]
              | jbool b => simp [jvalToParam, paramSize]
              | jnull => simp [jvalToParam, paramSize]
            · exact stringFilterTail_at_most_one _
          · exact stringFilterTail_at_most_one _
  exact H (paramSize v) v (le_refl _)

/-- Claim C3 as stated is false: the empty string is a supplied (non-None)
metadata_filter value, yet the parser returns a pair in which neither the
name-set nor the name-value-map is non-None. -/
theorem c3_counterexample :
    parse_metadata_filter (some (.pstr "")) = (none, none) := by
  rw [parse_metadata_filter.eq_def]
  decide

/-- Claim C3, amended: when the filter is absent both outputs are None, and
for every supplied metadata_filter value at most one of the name-set and the
name-value-map is non-None (both are None when the supplied content is
empty, as in C10). -/
theorem c3_amended_at_most_one :
    parse_metadata_filter none = (none, none)
      ∧ ∀ v : Option PyParam,
          (parse_metadata_filter v).1 = none ∨ (parse_metadata_filter v).2 = none :=
  ⟨by rw [parse_metadata_filter.eq_def], fun v => parse_filter_at_most_one v⟩

theorem mapOfDict_all_empty_keys (kvs : List (PyVal × PyVal))
    (h : ∀ kv ∈ kvs, pyStrip kv.1.toStr = "") : mapOfDict kvs = [] := by
  unfold mapOfDict
  have H : ∀ (l : List (PyVal × PyVal)) (acc : List (String × String)),
      (∀ kv ∈ l, pyStrip kv.1.toStr = "") →
      l.foldl (fun m kv =>
        if pyStrip kv.1.toStr = "" then m
        else dictInsert m (pyStrip kv.1.toStr) (pyStrip kv.2.toStr)) acc = acc := by
    intro l
    induction l with
    | nil => intro acc _; rfl
    | cons kv rest ih =>
      intro acc hall
      rw [List.foldl_cons, if_pos (hall kv (List.mem_cons_self kv rest))]
      exact ih acc (fun x hx => hall x (List.mem_cons_of_mem kv hx))
  exact H kvs [] h

theorem pyStrip_all_space {s : String} (h : s.data.all isPySpace) : pyStrip s = "" := by
  have h1 : s.data.dropWhile isPySpace = [] :=
    List.dropWhile_eq_nil_iff.mpr (by simpa [List.all_eq_true] using h)
  show (⟨pyStripList s.data⟩ : String) = ""
  unfold pyStripList
  rw [h1]
  rfl

/-- Claim C10: a metadata_filter whose content is empty (an empty or
all-blank list, a mapping with only blank keys, a whitespace-only string, or
a delimiter-only string whose parsed names or pairs are all empty) yields
the same parser output (None, None) as an absent filter, so the invocation
applies only the default built-in exclusion. -/
theorem c10_empty_filter_behaves_as_absent :
    parse_metadata_filter none = (none, none)
      ∧ (∀ xs : List PyVal, (∀ x ∈ xs, pyStrip x.toStr = "") →
          parse_metadata_filter (some (.plist xs)) = (none, none))
      ∧ (∀ kvs : List (PyVal × PyVal), (∀ kv ∈ kvs, pyStrip kv.1.toStr = "") →
          parse_metadata_filter (some (.pdict kvs)) = (none, none))
      ∧ (∀ s : String, s.data.all isPySpace →
          parse_metadata_filter (some (.pstr s)) = (none, none))
      ∧ parse_metadata_filter (some (.pstr " , ,\n，")) = (none, none)
      ∧ parse_metadata_filter (some (.pstr " = ; = ")) = (none, none) := by
  refine ⟨by rw [parse_metadata_filter.eq_def], ?_, ?_, ?_, ?_, ?_⟩
  · intro xs h
    rw [parse_metadata_filter.eq_def]
    dsimp only
    unfold filterFromList
    have hempty : namesOfList xs = ∅ := by
      unfold namesOfList
      have : (xs.map (fun x => pyStrip x.toStr)).filter (fun x => x ≠ "") = [] := by
        rw [List.filter_eq_nil_iff]
        intro a ha
        rw [List.mem_map] at ha
        obtain ⟨x, hx, hax⟩ := ha
        simp [← hax, h x hx]
      rw [this]
      rfl
    rw [hempty]
    simp
  · intro kvs h
    rw [parse_metadata_filter.eq_def]
    dsimp only
    unfold filterFromDict
    rw [mapOfDict_all_empty_keys kvs h]
    simp
  · intro s h
    rw [parse_metadata_filter.eq_def]
    dsimp only
    rw [if_pos (pyStrip_all_space h)]
  · rw [parse_metadata_filter.eq_def]
    decide
  · rw [parse_metadata_filter.eq_def]
    decide

theorem c10_witness :
    parse_metadata_filter (some (.plist [.vstr " "])) = (none, none)
      ∧ parse_metadata_filter (some (.pdict [(.vstr " ", .vstr "x")])) = (none, none)
      ∧ parse_metadata_filter (some (.pstr "  ")) = (none, none) :=
  ⟨c10_empty_filter_behaves_as_absent.2.1 [.vstr " "] (by decide),
   c10_empty_filter_behaves_as_absent.2.2.1 [(.vstr " ", .vstr "x")] (by decide),
   c10_empty_filter_behaves_as_absent.2.2.2.1 "  " (by decide)⟩

/-! Helper lemmas for the validation-error claim. -/

theorem normalize_dataset_list_error_msgs (v : Option PyParam) (e : String)
    (h : normalize_dataset_list v = .error e) : e = dsMissingMsg ∨ e = dsEmptyMsg := by
  have H : ∀ (n : Nat) (w : Option PyParam), paramSize w ≤ n → ∀ e,
      normalize_dataset_list w = .error e → e = dsMissingMsg ∨ e = dsEmptyMsg := by
    intro n
    induction n with
    | zero =>
      intro w hle e h
      match w with
      | none =>
        rw [normalize_dataset_list.eq_def] at h
        simp at h
        left; exact h.symm
      | some (.plist xs) =>
        rw [normalize_dataset_list.eq_def] at h
        dsimp only at h
        split at h <;> simp at h
        right; exact h.symm
      | some (.pdict kvs) =>
        rw [normalize_dataset_list.eq_def] at h
        simp at h
      | some (.pother wv) =>
        rw [normalize_dataset_list.eq_def] at h
        simp at h
      | some (.pstr s0) =>
        simp [paramSize] at hle
    | succ n ih =>
      intro w hle e h
      match w with
      | none =>
        rw [normalize_dataset_list.eq_def] at h
        simp at h
        left; exact h.symm
      | some (.plist xs) =>
        rw [normalize_dataset_list.eq_def] at h
        dsimp only at h
        split at h <;> simp at h
        right; exact h.symm
      | some (.pdict kvs) =>
        rw [normalize_dataset_list.eq_def] at h
        simp at h
      | some (.pother wv) =>
        rw [normalize_dataset_list.eq_def] at h
        simp at h
      | some (.pstr s0) =>
        rw [normalize_dataset_list.eq_def] at h
        dsimp only at h
        split at h
        · simp at h
          right; exact h.symm
        · split at h
          · split at h
            · rename_i j hj
              apply ih _ _ e h
              have hlt := pyStrip_length_le s0
              cases j with
              | jstr s2 =>
                have := jsonLoads_jstr_length hj
                simp [jvalToParam, paramSize] at hle ⊢
                have e1 : s2.length = s2.data.length := rfl
                have e2 : s0.length = s0.data.length := rfl
                omega
              | jarr xs => simp [jvalToParam, paramSize]
              | jobj kvs => simp [jvalToParam, paramSize]
              | jint nn => simp [jvalToParam, paramSize]
              | jbool b => simp [jvalToParam, paramSize]
              | jnull => simp [jvalToParam, paramSize]
            · split at h <;> simp at h
              right; exact h.symm
          · split at h <;> simp at h
            right; exact h.symm
  exact H (paramSize v) v (le_refl _) e h

theorem normalize_document_name_list_error_msgs (v : Option PyParam) (e : String)
    (h : normalize_document_name_list v = .error e) : e = dnMissingMsg ∨ e = dnEmptyMsg := by
  have H : ∀ (n : Nat) (w : Option PyParam), paramSize w ≤ n → ∀ e,
      normalize_document_name_list w = .error e → e = dnMissingMsg ∨ e = dnEmptyMsg := by
    intro n
    induction n with
    | zero =>
      intro w hle e h
      match w with
      | none =>
        rw [normalize_document_name_list.eq_def] at h
        simp at h
        left; exact h.symm
      | some (.plist xs) =>
        rw [normalize_document_name_list.eq_def] at h
        dsimp only at h
        split at h <;> simp at h
        right; exact h.symm
      | some (.pdict kvs) =>
        rw [normalize_document_name_list.eq_def] at h
        simp at h
      | some (.pother wv) =>
        rw [normalize_document_name_list.eq_def] at h
        simp at h
      | some (.pstr s0) =>
        simp [paramSize] at hle
    | succ n ih =>
      intro w hle e h
      match w with
      | none =>
        rw [normalize_document_name_list.eq_def] at h
        simp at h
        left; exact h.symm
      | some (.plist xs) =>
        rw [normalize_document_name_list.eq_def] at h
        dsimp only at h
        split at h <;> simp at h
        right; exact h.symm
      | some (.pdict kvs) =>
        rw [normalize_document_name_list.eq_def] at h
        simp at h
      | some (.pother wv) =>
        rw [normalize_document_name_list.eq_def] at h
        simp at h
      | some (.pstr s0) =>
        rw [normalize_document_name_list.eq_def] at h
        dsimp only at h
        split at h
        · simp at h
          right; exact h.symm
        · split at h
          · split at h
            · rename_i j hj
              apply ih _ _ e h
              have hlt := pyStrip_length_le s0
              cases j with
              | jstr s2 =>
                have := jsonLoads_jstr_length hj
                simp [jvalToParam, paramSize] at hle ⊢
                have e1 : s2.length = s2.data.length := rfl
                have e2 : s0.length = s0.data.length := rfl
                omega
              | jarr xs => simp [jvalToParam, paramSize]
              | jobj kvs => simp [jvalToParam, paramSize]
              | jint nn => simp [jvalToParam, paramSize]
              | jbool b => simp [jvalToParam, paramSize]
              | jnull => simp [jvalToParam, paramSize]
            · split at h <;> simp at h
              right; exact h.symm
          · split at h <;> simp at h
            right; exact h.symm
  exact H (paramSize v) v (le_refl _) e h

def keyMissingMsg : String := "missing required parameter: kb_api_key"

def keyEmptyMsg : String := "parameter " ++ sq ++ "kb_api_key" ++ sq ++ " cannot be empty"

theorem require_str_key_error_msgs (v : Option PyParam) (e : String)
    (h : require_str v "kb_api_key" = .error e) : e = keyMissingMsg ∨ e = keyEmptyMsg := by
  unfold require_str at h
  match v with
  | none =>
    simp at h
    left; exact h.symm
  | some (.pstr s) =>
    dsimp only at h
    split at h <;> simp at h
    right; exact h.symm
  | some (.plist xs) => simp at h
  | some (.pdict kvs) => simp at h
  | some (.pother wv) => simp at h

/-- Claim C4: when a required parameter (dataset_list, kb_api_key,
document_name) is missing or empty, the adapter emits exactly one error
message whose text names the offending parameter (it is one of the two
validation messages for that parameter), performs no HTTP calls, and
produces no other output.  Validation runs in source order, so each part is
conditional on the earlier parameters having validated. -/
theorem c4_validation_single_error (p : ToolParams)
    (fetch : String → String → String → String → Except String (List DocRecord)) :
    (∀ e, normalize_dataset_list p.dataset_list = .error e →
        invoke p fetch = ([.error e], []) ∧ (e = dsMissingMsg ∨ e = dsEmptyMsg))
      ∧ (∀ ds e, normalize_dataset_list p.dataset_list = .ok ds →
          require_str p.kb_api_key "kb_api_key" = .error e →
          invoke p fetch = ([.error e], []) ∧ (e = keyMissingMsg ∨ e = keyEmptyMsg))
      ∧ (∀ ds k e, normalize_dataset_list p.dataset_list = .ok ds →
          require_str p.kb_api_key "kb_api_key" = .ok k →
          normalize_document_name_list p.document_name = .error e →
          invoke p fetch = ([.error e], []) ∧ (e = dnMissingMsg ∨ e = dnEmptyMsg)) := by
  refine ⟨?_, ?_, ?_⟩
  · intro e h
    refine ⟨?_, normalize_dataset_list_error_msgs _ e h⟩
    unfold invoke
    rw [h]
  · intro ds e h1 h2
    refine ⟨?_, require_str_key_error_msgs _ e h2⟩
    unfold invoke
    rw [h1, h2]
  · intro ds k e h1 h2 h3
    refine ⟨?_, normalize_document_name_list_error_msgs _ e h3⟩
    unfold invoke
    rw [h1, h2, h3]

/-- A fetch oracle for the validation witnesses (never reached). -/
def cFetchNever : String → String → String → String → Except String (List DocRecord) :=
  fun _ _ _ _ => .error "unreachable"

theorem c4_witness :
    invoke ⟨none, none, none, none, none⟩ cFetchNever = ([.error dsMissingMsg], [])
      ∧ invoke ⟨some (.plist [.vstr "d"]), none, none, none, none⟩ cFetchNever
          = ([.error keyMissingMsg], [])
      ∧ invoke ⟨some (.plist [.vstr "d"]), some (.pstr "k"), some (.pstr " "), none, none⟩
          cFetchNever = ([.error dnEmptyMsg], []) :=
  ⟨((c4_validation_single_error ⟨none, none, none, none, none⟩ cFetchNever).1 dsMissingMsg
      (by rw [normalize_dataset_list.eq_def])).1,
   ((c4_validation_single_error ⟨some (.plist [.vstr "d"]), none, none, none, none⟩
        cFetchNever).2.1 ["d"] keyMissingMsg
      (by rw [normalize_dataset_list.eq_def]; rfl) rfl).1,
   ((c4_validation_single_error
        ⟨some (.plist [.vstr "d"]), some (.pstr "k"), some (.pstr " "), none, none⟩
        cFetchNever).2.2 ["d"] "k" dnEmptyMsg
      (by rw [normalize_dataset_list.eq_def]; rfl) rfl
      (by rw [normalize_document_name_list.eq_def]; rfl)).1⟩

/-- Claim C5: when the aggregated result list is empty, the adapter emits a
single error message, "no documents found; errors: " followed by the
per-pair error strings joined with "; " when at least one pair failed, and
plain "no documents found" when every pair succeeded with zero documents. -/
theorem c5_empty_aggregate_single_error (p : ToolParams)
    (fetch : String → String → String → String → Except String (List DocRecord))
    (ds names : List String) (k : String)
    (agg : List ResultItem) (errs : List String) (calls : List (String × String))
    (h1 : normalize_dataset_list p.dataset_list = .ok ds)
    (h2 : require_str p.kb_api_key "kb_api_key" = .ok k)
    (h3 : normalize_document_name_list p.document_name = .ok names)
    (hr : runPairs (normalize_base_url p.kb_base_url) k
        (parse_metadata_filter p.metadata_filter).1
        (parse_metadata_filter p.metadata_filter).2
        fetch (pairList ds names) = (agg, errs, calls))
    (hempty : agg = []) :
    (errs ≠ [] → invoke p fetch =
        ([.error ("no documents found; errors: " ++ String.intercalate "; " errs)], calls))
      ∧ (errs = [] → invoke p fetch = ([.error "no documents found"], calls)) := by
  have hbody : invoke p fetch =
      (if agg.isEmpty then
        if errs.isEmpty then ([.error "no documents found"], calls)
        else ([.error ("no documents found; errors: " ++ String.intercalate "; " errs)], calls)
      else ([.json agg], calls)) := by
    unfold invoke
    rw [h1]
    dsimp only
    rw [h2]
    dsimp only
    rw [h3]
    dsimp only
    rw [hr]
  constructor
  · intro hne
    rw [hbody, if_pos (by rw [hempty]; rfl), if_neg (by simpa using hne)]
  · intro heq
    rw [hbody, if_pos (by rw [hempty]; rfl), if_pos (by rw [heq]; rfl)]

/-- Claim C6: when at least one document is aggregated, the adapter emits
exactly one success message carrying the documents list, and no per-pair
fetch error appears in the output even if other pairs failed. -/
theorem c6_success_swallows_pair_errors (p : ToolParams)
    (fetch : String → String → String → String → Except String (List DocRecord))
    (ds names : List String) (k : String)
    (agg : List ResultItem) (errs : List String) (calls : List (String × String))
    (h1 : normalize_dataset_list p.dataset_list = .ok ds)
    (h2 : require_str p.kb_api_key "kb_api_key" = .ok k)
    (h3 : normalize_document_name_list p.document_name = .ok names)
    (hr : runPairs (normalize_base_url p.kb_base_url) k
        (parse_metadata_filter p.metadata_filter).1
        (parse_metadata_filter p.metadata_filter).2
        fetch (pairList ds names) = (agg, errs, calls))
    (hne : agg ≠ []) :
    invoke p fetch = ([.json agg], calls) := by
  have hbody : invoke p fetch =
      (if agg.isEmpty then
        if errs.isEmpty then ([.error "no documents found"], calls)
        else ([.error ("no documents found; errors: " ++ String.intercalate "; " errs)], calls)
      else ([.json agg], calls)) := by
    unfold invoke
    rw [h1]
    dsimp only
    rw [h2]
    dsimp only
    rw [h3]
    dsimp only
    rw [hr]
  rw [hbody, if_neg (by simpa using hne)]

/-- Witness data for C5: a single pair whose fetch fails. -/
def c5Params : ToolParams :=
  ⟨some (.plist [.vstr "d1"]), some (.pstr "k"), some (.pstr "n1"), none, none⟩

def c5Fetch : String → String → String → String → Except String (List DocRecord) :=
  fun _ _ _ _ => .error "boom"

theorem c5_witness :
    invoke c5Params c5Fetch =
      ([.error ("no documents found; errors: "
          ++ String.intercalate "; " [pairErrMsg "d1" "n1" "boom"])], [("d1", "n1")]) :=
  (c5_empty_aggregate_single_error c5Params c5Fetch ["d1"] ["n1"] "k"
      [] [pairErrMsg "d1" "n1" "boom"] [("d1", "n1")]
      (by rw [normalize_dataset_list.eq_def]; rfl) rfl
      (by rw [normalize_document_name_list.eq_def]; rfl) rfl rfl).1 (by simp)

/-- Witness data for C6: one pair succeeds with a document, another fails. -/
def c6Params : ToolParams :=
  ⟨some (.plist [.vstr "d1", .vstr "d2"]), some (.pstr "k"), some (.pstr "n"), none, none⟩

def c6Fetch : String → String → String → String → Except String (List DocRecord) :=
  fun _ d _ _ => if d = "d1" then .ok [⟨some "doc", []⟩] else .error "boom"

theorem c6_witness :
    invoke c6Params c6Fetch =
      ([.json [⟨"doc", []⟩]], [("d1", "n"), ("d2", "n")]) :=
  c6_success_swallows_pair_errors c6Params c6Fetch ["d1", "d2"] ["n"] "k"
    [⟨"doc", []⟩] [pairErrMsg "d2" "n" "boom"] [("d1", "n"), ("d2", "n")]
    (by rw [normalize_dataset_list.eq_def]; rfl) rfl
    (by rw [normalize_document_name_list.eq_def]; rfl) rfl (by simp)

/-! A JSON encoder for lists of strings (a valid json.dumps-style encoding:
double quotes, backslash escapes, \u00XX for control characters), used to
state the native-list versus JSON-array-string equivalence claim. -/

/-- Lower-case hex digit of a value below 16. -/
def hexDigitChar (n : Nat) : Char :=
  if n < 10 then Char.ofNat (48 + n) else Char.ofNat (87 + n)

/-- JSON escape of one character. -/
def escapeChar (c : Char) : List Char :=
  if c = '"' then ['\\', '"']
  else if c = '\\' then ['\\', '\\']
  else if c.toNat < 32 then
    ['\\', 'u', '0', '0', hexDigitChar (c.toNat / 16), hexDigitChar (c.toNat % 16)]
  else [c]

/-- JSON escape of a character list. -/
def escList : List Char → List Char
  | [] => []
  | c :: cs => escapeChar c ++ escList cs

/-- The characters of the JSON encoding of one string. -/
def jsonEncodeStrChars (s : String) : List Char := '"' :: escList s.data ++ ['"']

/-- The characters of the comma-separated encodings of the list elements. -/
def encodeItemsChars : List String → List Char
  | [] => []
  | [s] => jsonEncodeStrChars s
  | s :: rest => jsonEncodeStrChars s ++ ',' :: encodeItemsChars rest

/-- The JSON-array string encoding a list of strings. -/
def jsonEncodeStrList (l : List String) : String :=
  ⟨'[' :: (encodeItemsChars l ++ [']'])⟩

theorem hexVal?_hexDigitChar {n : Nat} (h : n < 16) :
    hexVal? (hexDigitChar n) = some n := by
  interval_cases n <;> decide

theorem pStr_escList (cs : List Char) :
    ∀ rest, pStr (escList cs ++ '"' :: rest) = some (cs, rest) := by
  induction cs with
  | nil =>
    intro rest
    rw [escList, pStr.eq_def]
    simp
  | cons c cs ih =>
    intro rest
    rw [escList]
    by_cases hq : c = '"'
    · subst hq
      rw [show escapeChar '"' = ['\\', '"'] from rfl]
      rw [show (['\\', '"'] ++ escList cs) ++ '"' :: rest
            = '\\' :: '"' :: (escList cs ++ '"' :: rest) from rfl]
      rw [pStr.eq_def]
      dsimp only
      rw [ih rest]
      simp [unescapeChar]
    · by_cases hb : c = '\\'
      · subst hb
        rw [show escapeChar '\\' = ['\\', '\\'] from rfl]
        rw [show (['\\', '\\'] ++ escList cs) ++ '"' :: rest
              = '\\' :: '\\' :: (escList cs ++ '"' :: rest) from rfl]
        rw [pStr.eq_def]
        dsimp only
        rw [ih rest]
        simp [unescapeChar]
      · by_cases hctl : c.toNat < 32
        · rw [show escapeChar c
              = ['\\', 'u', '0', '0', hexDigitChar (c.toNat / 16), hexDigitChar (c.toNat % 16)]
              from by rw [escapeChar, if_neg hq, if_neg hb, if_pos hctl]]
          rw [show (['\\', 'u', '0', '0', hexDigitChar (c.toNat / 16),
                hexDigitChar (c.toNat % 16)] ++ escList cs) ++ '"' :: rest
              = '\\' :: 'u' :: '0' :: '0' :: hexDigitChar (c.toNat / 16)
                :: hexDigitChar (c.toNat % 16) :: (escList cs ++ '"' :: rest) from rfl]
          rw [pStr.eq_def]
          dsimp only
          rw [hexVal?_hexDigitChar (by omega : c.toNat / 16 < 16),
            hexVal?_hexDigitChar (Nat.mod_lt _ (by omega) : c.toNat % 16 < 16)]
          rw [show hexVal? '0' = some 0 from rfl]
          rw [ih rest]
          dsimp only
          have harith : 4096 * 0 + 256 * 0 + 16 * (c.toNat / 16) + c.toNat % 16 = c.toNat := by
            omega
          rw [harith, Char.ofNat_toNat]
          simp
        · rw [show escapeChar c = [c] from by rw [escapeChar, if_neg hq, if_neg hb, if_neg hctl]]
          rw [show ([c] ++ escList cs) ++ '"' :: rest = c :: (escList cs ++ '"' :: rest) from rfl]
          rw [pStr.eq_def]
          dsimp only
          rw [if_neg hq, if_neg hb, if_neg hctl, ih rest]

theorem skipWs_cons_not_ws {c : Char}
    (h : (c = ' ' || c = '\t' || c = '\n' || c = '\r') = false) (x : List Char) :
    skipWs (c :: x) = c :: x := by
  unfold skipWs
  rw [List.dropWhile_cons, if_neg (by simp [h])]

theorem pScalar?_encoded (s : String) (rest : List Char) :
    pScalar? ('"' :: (escList s.data ++ '"' :: rest)) = some (.vstr s, rest) := by
  rw [pScalar?.eq_def]
  dsimp only
  rw [if_pos rfl, pStr_escList]

theorem pArrLoop_encode (l : List String) (hl : l ≠ []) :
    ∀ rest, pArrLoop (encodeItemsChars l ++ ']' :: rest) = some (l.map PyVal.vstr, rest) := by
  induction l with
  | nil => exact absurd rfl hl
  | cons s l ih =>
    intro rest
    cases l with
    | nil =>
      rw [show encodeItemsChars [s] ++ ']' :: rest
            = '"' :: (escList s.data ++ '"' :: ']' :: rest) from by
          simp [encodeItemsChars, jsonEncodeStrChars]]
      rw [pArrLoop.eq_def]
      split
      · rename_i h1
        rw [skipWs_cons_not_ws (by decide), pScalar?_encoded s (']' :: rest)] at h1
        simp at h1
      · rename_i vr h1
        rw [skipWs_cons_not_ws (by decide), pScalar?_encoded s (']' :: rest)] at h1
        simp at h1
        subst h1
        split
        · rename_i h2
          rw [show skipWs (PyVal.vstr s, ']' :: rest).2 = ']' :: rest from
            skipWs_cons_not_ws (by decide) rest] at h2
          simp at h2
        · rename_i c r h2
          rw [show skipWs (PyVal.vstr s, ']' :: rest).2 = ']' :: rest from
            skipWs_cons_not_ws (by decide) rest] at h2
          injection h2 with hc hr
          subst hc
          subst hr
          rw [if_pos rfl]
          rfl
    | cons t ts =>
      rw [show encodeItemsChars (s :: t :: ts) ++ ']' :: rest
            = '"' :: (escList s.data ++ '"' :: ','
                :: (encodeItemsChars (t :: ts) ++ ']' :: rest)) from by
          simp [encodeItemsChars, jsonEncodeStrChars]]
      rw [pArrLoop.eq_def]
      split
      · rename_i h1
        rw [skipWs_cons_not_ws (by decide),
          pScalar?_encoded s (',' :: (encodeItemsChars (t :: ts) ++ ']' :: rest))] at h1
        simp at h1
      · rename_i vr h1
        rw [skipWs_cons_not_ws (by decide),
          pScalar?_encoded s (',' :: (encodeItemsChars (t :: ts) ++ ']' :: rest))] at h1
        simp at h1
        subst h1
        split
        · rename_i h2
          rw [show skipWs (PyVal.vstr s, ','
                :: (encodeItemsChars (t :: ts) ++ ']' :: rest)).2
              = ',' :: (encodeItemsChars (t :: ts) ++ ']' :: rest) from
            skipWs_cons_not_ws (by decide) _] at h2
          simp at h2
        · rename_i c r h2
          rw [show skipWs (PyVal.vstr s, ','
                :: (encodeItemsChars (t :: ts) ++ ']' :: rest)).2
              = ',' :: (encodeItemsChars (t :: ts) ++ ']' :: rest) from
            skipWs_cons_not_ws (by decide) _] at h2
          injection h2 with hc hr
          subst hc
          subst hr
          rw [if_neg (by decide), if_pos rfl]
          rw [ih (List.cons_ne_nil t ts) rest]
          rfl

theorem encode_ne_empty (l : List String) : jsonEncodeStrList l ≠ "" := by
  intro h
  have := congrArg String.data h
  simp [jsonEncodeStrList] at this

theorem pyStrip_encode (l : List String) :
    pyStrip (jsonEncodeStrList l) = jsonEncodeStrList l := by
  show (⟨pyStripList ('[' :: (encodeItemsChars l ++ [']']))⟩ : String) = _
  unfold pyStripList
  rw [List.dropWhile_cons, if_neg (by simp [isPySpace])]
  rw [show ('[' :: (encodeItemsChars l ++ [']'])).reverse
        = ']' :: ((encodeItemsChars l).reverse ++ ['[']) from by simp]
  rw [List.dropWhile_cons, if_neg (by simp [isPySpace])]
  rw [show (']' :: ((encodeItemsChars l).reverse ++ ['['])).reverse
        = '[' :: (encodeItemsChars l ++ [']']) from by simp]
  rfl

theorem encode_starts_bracket (l : List String) :
    strStartsWithChar (jsonEncodeStrList l) '[' = true := by
  rfl

theorem encode_ends_bracket (l : List String) :
    strEndsWithChar (jsonEncodeStrList l) ']' = true := by
  unfold strEndsWithChar
  show (match ('[' :: encodeItemsChars l ++ [']']).getLast? with
    | none => false
    | some c0 => c0 = ']') = true
  rw [show '[' :: encodeItemsChars l ++ [']'] = ('[' :: encodeItemsChars l) ++ [']'] from rfl]
  rw [List.getLast?_concat]
  simp

theorem jsonLoads_encode (l : List String) :
    jsonLoads (jsonEncodeStrList l) = some (.jarr (l.map PyVal.vstr)) := by
  unfold jsonLoads
  rw [show (jsonEncodeStrList l).data = '[' :: (encodeItemsChars l ++ [']']) from rfl]
  rw [skipWs_cons_not_ws (by decide)]
  dsimp only
  rw [if_pos rfl]
  cases l with
  | nil =>
    rw [show encodeItemsChars [] ++ [']'] = [']'] from rfl]
    rw [show pArrRest [']'] = some ([], []) from rfl]
    rfl
  | cons s l =>
    have hhead : ∃ tail, encodeItemsChars (s :: l) ++ [']'] = '"' :: tail := by
      cases l with
      | nil => exact ⟨_, rfl⟩
      | cons t ts => exact ⟨_, rfl⟩
    obtain ⟨tail, htail⟩ := hhead
    rw [show pArrRest (encodeItemsChars (s :: l) ++ [']'])
          = pArrLoop (encodeItemsChars (s :: l) ++ [']']) from by
        unfold pArrRest
        rw [htail, skipWs_cons_not_ws (by decide)]
        dsimp only
        rw [if_neg (by decide)]]
    rw [show encodeItemsChars (s :: l) ++ [']'] = encodeItemsChars (s :: l) ++ ']' :: [] from rfl]
    rw [pArrLoop_encode (s :: l) (List.cons_ne_nil s l) []]
    rfl

theorem encode_shape_list (l : List String) :
    looksJsonListShaped (jsonEncodeStrList l) = true := by
  unfold looksJsonListShaped
  rw [encode_starts_bracket, encode_ends_bracket]
  rfl

theorem encode_shape_filter (l : List String) :
    looksJsonFilterShaped (jsonEncodeStrList l) = true := by
  unfold looksJsonFilterShaped
  rw [encode_starts_bracket, encode_ends_bracket]
  rfl

/-- Claim C9: for each list-typed parameter (dataset_list, document_name,
metadata_filter), normalizing a native list of strings and normalizing the
JSON-array string that encodes that same list produce the same canonical
result. -/
theorem c9_native_list_json_string_agree (l : List String) :
    normalize_dataset_list (some (.pstr (jsonEncodeStrList l)))
        = normalize_dataset_list (some (.plist (l.map .vstr)))
      ∧ normalize_document_name_list (some (.pstr (jsonEncodeStrList l)))
        = normalize_document_name_list (some (.plist (l.map .vstr)))
      ∧ parse_metadata_filter (some (.pstr (jsonEncodeStrList l)))
        = parse_metadata_filter (some (.plist (l.map .vstr))) := by
  refine ⟨?_, ?_, ?_⟩
  · rw [normalize_dataset_list.eq_def]
    dsimp only
    rw [if_neg (show ¬(pyStrip (jsonEncodeStrList l) = "") from by
        rw [pyStrip_encode]; exact encode_ne_empty l)]
    rw [if_pos (show looksJsonListShaped (pyStrip (jsonEncodeStrList l)) = true from by
        rw [pyStrip_encode]; exact encode_shape_list l)]
    split
    · rename_i j hj
      rw [pyStrip_encode, jsonLoads_encode] at hj
      injection hj with hj
      subst hj
      rfl
    · rename_i hj
      rw [pyStrip_encode, jsonLoads_encode] at hj
      exact absurd hj (by simp)
  · rw [normalize_document_name_list.eq_def]
    dsimp only
    rw [if_neg (show ¬(pyStrip (jsonEncodeStrList l) = "") from by
        rw [pyStrip_encode]; exact encode_ne_empty l)]
    rw [if_pos (show looksJsonListShaped (pyStrip (jsonEncodeStrList l)) = true from by
        rw [pyStrip_encode]; exact encode_shape_list l)]
    split
    · rename_i j hj
      rw [pyStrip_encode, jsonLoads_encode] at hj
      injection hj with hj
      subst hj
      rfl
    · rename_i hj
      rw [pyStrip_encode, jsonLoads_encode] at hj
      exact absurd hj (by simp)
  · rw [parse_metadata_filter.eq_def]
    dsimp only
    rw [if_neg (show ¬(pyStrip (jsonEncodeStrList l) = "") from by
        rw [pyStrip_encode]; exact encode_ne_empty l)]
    rw [if_pos (show looksJsonFilterShaped (pyStrip (jsonEncodeStrList l)) = true from by
        rw [pyStrip_encode]; exact encode_shape_filter l)]
    split
    · rename_i j hj
      rw [pyStrip_encode, jsonLoads_encode] at hj
      injection hj with hj
      subst hj
      rfl
    · rename_i hj
      rw [pyStrip_encode, jsonLoads_encode] at hj
      exact absurd hj (by simp)

end DocmetaQuery
